import Mathlib

/-!
Verification of the minitrue line-rewriting tool.

The Python sources (src/minitrue/{config,processor,rules,types,jinja,cli}.py)
are embedded shallowly:

* Python dicts of strings become association lists with in-place-replacing
  insertion (`dinsert`), preserving Python's insertion-order iteration.
* The vendored regex engine (`re`) is modelled abstractly: a compiled
  pattern is a search function from a subject string to an optional match
  carrying a group dictionary, group spans and the pattern's declared
  named groups.  Concrete regexes appearing in the claims are given honest
  concrete search functions (valid for newline-free subjects, which is what
  `parse_line` feeds them after stripping trailing newlines).
* The two vendored template engines are modelled from their documented
  semantics as used by the code: rewrite rules render Jinja2 templates
  (double-brace placeholders, StrictUndefined: an undefined name is a
  rendering error), while the output format uses Python `str.format`
  (single-brace fields; a missing key raises, which `_emit` catches).
* Fallible rendering returns `Except`; the stream processor threads the
  abort-on-error behaviour of an uncaught Python exception explicitly.
-/

namespace Minitrue

/-- Python-dict lookup on an association list: first binding wins
(insertion keeps keys unique, so this matches Python `d.get`). -/
def dlookup (k : String) (m : List (String × String)) : Option String :=
  List.lookup k m

/-- Python-dict assignment `d[k] = v`: replace the existing binding in
place (keeping its position in iteration order) or append a new one. -/
def dinsert (m : List (String × String)) (k v : String) : List (String × String) :=
  match m with
  | [] => [(k, v)]
  | (k', v') :: rest => if k' = k then (k, v) :: rest else (k', v') :: dinsert rest k v

/-- Python `d.update(kv)`: assign every binding of `kv` in order. -/
def dupdate (m kv : List (String × String)) : List (String × String) :=
  kv.foldl (fun acc p => dinsert acc p.1 p.2) m

/-- Drop every trailing newline character from a character list
(the list-level core of Python `str.rstrip("\n")`). -/
def dropTrailingNL (cs : List Char) : List Char :=
  (cs.reverse.dropWhile (fun c => c = '\n')).reverse

/-- Python `s.rstrip("\n")`: remove all trailing newline characters. -/
def rstripNewlines (s : String) : String :=
  String.mk (dropTrailingNL s.data)

/-- Python `s.endswith("\n")`. -/
def endsWithNL (s : String) : Bool :=
  s.data.getLast? = some '\n'

/-- Normalise one Python slice index against a length: negative indices
count from the end (clamped at 0), positive ones are clamped at the length. -/
def pySliceIdx (len : Nat) (i : Int) : Nat :=
  if i < 0 then ((len : Int) + i).toNat else min i.toNat len

/-- Python slicing `s[a:b]` on character offsets (step 1). -/
def pySlice (s : String) (a b : Int) : String :=
  let lo := pySliceIdx s.length a
  let hi := pySliceIdx s.length b
  String.mk ((s.data.drop lo).take (hi - lo))

/-- Core of Python `str.replace` for a nonempty needle: replace every
non-overlapping occurrence, scanning left to right.  The fuel decreases
once per emitted chunk; callers supply fuel no smaller than the subject
length, which is enough because every step consumes at least one
character of the subject. -/
def pyReplaceAux (fuel : Nat) (cs pat rep : List Char) : List Char :=
  match fuel, cs with
  | 0, rest => rest
  | _ + 1, [] => []
  | fuel + 1, c :: rest =>
    if pat.isPrefixOf (c :: rest) then
      rep ++ pyReplaceAux fuel ((c :: rest).drop pat.length) pat rep
    else
      c :: pyReplaceAux fuel rest pat rep

/-- Python `s.replace(pat, rep)`; only ever called with a nonempty `pat`
(the processor skips empty search strings), so the empty-needle case is
modelled as the identity. -/
def pyReplace (s pat rep : String) : String :=
  if pat.data.isEmpty then s
  else String.mk (pyReplaceAux (s.data.length + 1) s.data pat.data rep.data)

/-- Abstract result of `pattern.search(subject)`: the group dictionary
(`None` for a named group that did not participate), the character spans
of the named groups (Python reports `(-1, -1)` for a non-participating
group), as delivered by the vendored regex engine. -/
structure ReMatch where
  groupdict : List (String × Option String)
  spans : List (String × (Int × Int))
deriving DecidableEq

/-- Abstract compiled regex: its search function plus the names of the
groups the pattern declares (Python `pattern.groupindex`). -/
structure RePattern where
  search : String → Option ReMatch
  groupindex : List String

/-- The three regex flags the tool translates (config.py `_parse_flags`). -/
structure ReFlags where
  ignorecase : Bool
  multiline : Bool
  dotall : Bool
deriving DecidableEq

/-- One iteration of the letter loop in `_parse_flags`. -/
def flagStep (fl : ReFlags) (ch : Char) : ReFlags :=
  if ch.toLower = 'i' then { fl with ignorecase := true }
  else if ch.toLower = 'm' then { fl with multiline := true }
  else if ch.toLower = 's' then { fl with dotall := true }
  else fl

/-- config.py `_parse_flags`: Python's falsy test accepts both `None` and
the empty string, returning bare `re.MULTILINE`; otherwise the letters are
folded over a `re.MULTILINE` baseline. -/
def _parse_flags (flag_letters : Option String) : ReFlags :=
  match flag_letters with
  | none => { ignorecase := false, multiline := true, dotall := false }
  | some s =>
    if s = "" then { ignorecase := false, multiline := true, dotall := false }
    else s.data.foldl flagStep { ignorecase := false, multiline := true, dotall := false }

/-- A compiled template piece: literal text or a variable reference. -/
inductive TemplatePart where
  | lit (s : String)
  | var (name : String)
deriving DecidableEq

/-- Strip leading and trailing whitespace from a character list (Jinja2
trims the blanks around an expression's content). -/
def trimBlanks (cs : List Char) : List Char :=
  ((cs.dropWhile Char.isWhitespace).reverse.dropWhile Char.isWhitespace).reverse

/-- Scan for the closing double brace of a Jinja2 expression, returning
the enclosed characters and the remainder after the closer. -/
def jinjaFindClose : List Char → Option (List Char × List Char)
  | [] => none
  | '}' :: '}' :: rest => some ([], rest)
  | c :: rest => (jinjaFindClose rest).map fun p => (c :: p.1, p.2)

/-- Tokenise a Jinja2 template: a double-brace pair delimits a variable
expression (surrounding blanks trimmed), everything else is literal text.
The claims only exercise well-formed templates, so an unterminated opening
delimiter is kept as literal text.  Fuel decreases every step while the
input loses at least one character, so fuel = length + 1 suffices. -/
def jinjaScan (fuel : Nat) (cs : List Char) : List TemplatePart :=
  match fuel, cs with
  | 0, _ => []
  | _ + 1, [] => []
  | fuel + 1, '{' :: '{' :: rest =>
    match jinjaFindClose rest with
    | some (inner, after) => .var (String.mk (trimBlanks inner)) :: jinjaScan fuel after
    | none => [.lit (String.mk ('{' :: '{' :: rest))]
  | fuel + 1, c :: rest => .lit c.toString :: jinjaScan fuel rest

/-- jinja.py `compile_template`: compile a template source string once,
in the process-wide strict environment. -/
def compile_template (source : String) : List TemplatePart :=
  jinjaScan (source.data.length + 1) source.data

/-- Render a compiled Jinja2 template under `StrictUndefined`: the first
variable missing from the mapping raises (the error carries its name). -/
def jinjaRender (parts : List TemplatePart) (values : List (String × String)) :
    Except String String :=
  match parts with
  | [] => .ok ""
  | .lit s :: rest => (jinjaRender rest values).map (fun t => s ++ t)
  | .var n :: rest =>
    match dlookup n values with
    | none => .error n
    | some v => (jinjaRender rest values).map (fun t => v ++ t)

/-- Scan for the closing brace of a `str.format` replacement field. -/
def pyTakeField : List Char → Option (List Char × List Char)
  | [] => none
  | '}' :: rest => some ([], rest)
  | c :: rest => (pyTakeField rest).map fun p => (c :: p.1, p.2)

/-- Core of Python `str.format(**mapping)` restricted to the plain
named-field syntax the configuration uses: doubled braces escape, a
single-brace field looks its name up in the mapping, and every failure the
real call can raise (missing key, stray or unterminated brace) is an
error, which is all the caller observes through its catch-all handler.
Fuel decreases once per step while at least one character is consumed. -/
def pyFormatCore (fuel : Nat) (cs : List Char) (m : List (String × String)) :
    Except Unit String :=
  match fuel, cs with
  | 0, _ => .error ()
  | _ + 1, [] => .ok ""
  | fuel + 1, '{' :: '{' :: rest => (pyFormatCore fuel rest m).map (fun s => "\x7b" ++ s)
  | fuel + 1, '}' :: '}' :: rest => (pyFormatCore fuel rest m).map (fun s => "\x7d" ++ s)
  | fuel + 1, '{' :: rest =>
    match pyTakeField rest with
    | none => .error ()
    | some (name, after) =>
      match dlookup (String.mk name) m with
      | none => .error ()
      | some v => (pyFormatCore fuel after m).map (fun s => v ++ s)
  | _ + 1, '}' :: _ => .error ()
  | fuel + 1, c :: rest => (pyFormatCore fuel rest m).map (fun s => c.toString ++ s)

/-- Python `fmt.format(**m)` as used by `Processor._emit`. -/
def pyFormat (fmt : String) (m : List (String × String)) : Except Unit String :=
  pyFormatCore (fmt.data.length + 1) fmt.data m

/-- types.py `ParsedLine`: container for a parsed input line. -/
structure ParsedLine where
  fields : List (String × String)
  msg : String
  original_line : String
  msg_span : Option (Int × Int) := none
  line_override : Option String := none
deriving DecidableEq

/-- types.py `ParsedLine.as_mapping`: all fields plus `msg` bound to the
current message value. -/
def ParsedLine.as_mapping (p : ParsedLine) : List (String × String) :=
  dinsert p.fields "msg" p.msg

/-- config.py `InputFormatConfig`; the regex string and its flags are
represented by the compiled pattern the loader would build from them. -/
structure InputFormatConfig where
  regex : Option RePattern := none

/-- config.py `OutputFormatConfig`. -/
structure OutputFormatConfig where
  format : Option String := none

/-- config.py `Config`, restricted to the fields the processor reads;
`global_replace` keeps the mapping's insertion order as a list and
`unmatched` has been validated to `pass` or `skip` by the loader. -/
structure Config where
  input : InputFormatConfig := {}
  output : OutputFormatConfig := {}
  global_replace : List (String × String) := []
  unmatched : String := "pass"

/-- Body of config.py `parse_line` applied to the line with its trailing
newlines already stripped: search the input pattern if one is configured,
and split the named groups into `fields`, the special `msg` group
(falling back to the whole line when it did not participate) and its span
(present whenever the pattern declares `msg`). -/
def parse_line_core (line : String) (input_cfg : InputFormatConfig) : ParsedLine :=
  match input_cfg.regex with
  | none => { fields := [], msg := line, original_line := line }
  | some pattern =>
    match pattern.search line with
    | none => { fields := [], msg := line, original_line := line }
    | some m =>
      let groups := m.groupdict
      let msg_value := (Option.join (List.lookup "msg" groups)).getD line
      let msg_span :=
        if "msg" ∈ pattern.groupindex then
          some ((List.lookup "msg" m.spans).getD ((-1 : Int), (-1 : Int)))
        else none
      let other_fields :=
        groups.filterMap fun kv =>
          if kv.1 = "msg" then none else some (kv.1, kv.2.getD "")
      { fields := other_fields, msg := msg_value, original_line := line,
        msg_span := msg_span }

/-- config.py `parse_line`: strip the trailing newlines off the raw line,
then apply the parsing body above. -/
def parse_line (raw_line : String) (input_cfg : InputFormatConfig) : ParsedLine :=
  parse_line_core (rstripNewlines raw_line) input_cfg

/-- rules.py rewrite scope: replace just the message or the whole line. -/
inductive Scope where
  | message
  | line
deriving DecidableEq

/-- rules.py rule hierarchy, closed into a tagged variant: `SkipRule`,
`PassRule` and `RewriteRule` (the latter carrying its compiled template
and scope) all hold a compiled `when` pattern. -/
inductive CompiledRule where
  | skip (pattern : RePattern)
  | pass (pattern : RePattern)
  | rewrite (pattern : RePattern) (template : List TemplatePart) (scope : Scope)

/-- The compiled matching expression shared by every rule kind. -/
def CompiledRule.pattern : CompiledRule → RePattern
  | .skip p => p
  | .pass p => p
  | .rewrite p _ _ => p

/-- rules.py `BaseRegexRule.matches`: search the rule's pattern within the
parsed line's message. -/
def ruleMatches (r : CompiledRule) (p : ParsedLine) : Option ReMatch :=
  r.pattern.search p.msg

/-- rules.py `RewriteRule._render_template`: start from the line's full
key/value mapping, overlay this rule's own named captures (a capture
that produced no text becomes the empty string), and render the compiled
template strictly. -/
def _render_template (pattern : RePattern) (template : List TemplatePart)
    (p : ParsedLine) : Except String String :=
  let values := p.as_mapping
  let values :=
    match pattern.search p.msg with
    | some m => dupdate values (m.groupdict.map fun kv => (kv.1, kv.2.getD ""))
    | none => values
  jinjaRender template values

/-- rules.py `apply`: skip drops the line, pass emits it unchanged, and
rewrite renders its template, either overriding the whole line (line
scope, message kept unchanged) or replacing the message (message scope).
A rendering error escapes `apply` uncaught. -/
def CompiledRule.apply : CompiledRule → ParsedLine → Except String (Bool × ParsedLine)
  | .skip _, p => .ok (false, p)
  | .pass _, p => .ok (true, p)
  | .rewrite pat tpl scope, p => do
    let rendered ← _render_template pat tpl p
    match scope with
    | .line =>
      .ok (true, { fields := p.fields, msg := p.msg,
                   original_line := p.original_line,
                   msg_span := p.msg_span, line_override := some rendered })
    | .message =>
      .ok (true, { fields := p.fields, msg := rendered,
                   original_line := p.original_line,
                   msg_span := p.msg_span, line_override := none })

/-- The no-output-format arm of `Processor._emit`: when the message
differs from the text originally occupying `msg_span` inside
`original_line`, splice the new message into the original line at that
span; otherwise write the original line. -/
def emitNoFormat (p : ParsedLine) : String :=
  match p.msg_span with
  | some (a, b) =>
    if p.msg ≠ pySlice p.original_line a b then
      pySlice p.original_line 0 a ++ p.msg ++ pySlice p.original_line b p.original_line.length
    else p.original_line
  | none => p.original_line

/-- processor.py `Processor._emit`: a set `line_override` is written
verbatim; otherwise a configured (truthy, hence nonempty) output format is
rendered, falling back to the bare message on any rendering failure;
otherwise the no-format reconstruction above applies.  Every path appends
one newline.  The written text is returned instead of performed. -/
def _emit (cfg : Config) (p : ParsedLine) : String :=
  match p.line_override with
  | some ov => ov ++ "\n"
  | none =>
    match cfg.output.format with
    | some fmt =>
      if fmt = "" then emitNoFormat p ++ "\n"
      else
        match pyFormat fmt p.as_mapping with
        | .ok s => s ++ "\n"
        | .error _ => p.msg ++ "\n"
    | none => emitNoFormat p ++ "\n"

/-- processor.py `Processor._apply_global_replacements`: strip the
trailing newline, fold the literal replacements over the line in the
mapping's iteration order skipping empty search strings, then reattach
the newline if the raw line had one. -/
def _apply_global_replacements (cfg : Config) (raw_line : String) : String :=
  let line_no_nl := rstripNewlines raw_line
  let line_no_nl :=
    cfg.global_replace.foldl
      (fun acc kv => if kv.1 ≠ "" then pyReplace acc kv.1 kv.2 else acc) line_no_nl
  line_no_nl ++ (if endsWithNL raw_line then "\n" else "")

/-- The rule loop of `Processor.process_stream`: evaluate the compiled
rules in declaration order, apply the first one that matches (stopping
there whether or not it emits), and fall through to the `unmatched`
policy when none matched.  `some s` is the text written for this line,
`none` means the line was dropped; an apply error escapes. -/
def runRules (cfg : Config) (rules : List CompiledRule) (p : ParsedLine) :
    Except String (Option String) :=
  match rules with
  | [] => .ok (if cfg.unmatched = "pass" then some (_emit cfg p) else none)
  | r :: rest =>
    match ruleMatches r p with
    | some _ => do
      let res ← r.apply p
      .ok (if res.1 then some (_emit cfg res.2) else none)
    | none => runRules cfg rest p

/-- The loop body of `Processor.process_stream` for one raw line: apply
global replacements, parse, inject the 1-based `line_no` field, then run
the rules. -/
def processRawLine (cfg : Config) (rules : List CompiledRule)
    (raw_line : String) (line_number : Nat) : Except String (Option String) :=
  let replaced := _apply_global_replacements cfg raw_line
  let parsed := parse_line replaced cfg.input
  let parsed := { parsed with fields := dinsert parsed.fields "line_no" (toString line_number) }
  runRules cfg rules parsed

/-- Outcome of a whole run: everything written to the output stream, and
the error that aborted the run, if any (writes performed before the
failing line persist, nothing of or after it is written). -/
structure StreamResult where
  output : String
  err : Option String
deriving DecidableEq, Repr

/-- processor.py `Processor.process_stream` over a list of raw input
lines, numbering them from `line_number`: process each line in order,
concatenating the emitted text, stopping at the first uncaught error. -/
def process_stream (cfg : Config) (rules : List CompiledRule)
    (lines : List String) (line_number : Nat) : StreamResult :=
  match lines with
  | [] => { output := "", err := none }
  | l :: rest =>
    match processRawLine cfg rules l line_number with
    | .error e => { output := "", err := some e }
    | .ok out =>
      let r := process_stream cfg rules rest (line_number + 1)
      { output := out.getD "" ++ r.output, err := r.err }

/-- ASCII word character, as `\w` classifies the subjects the claims use. -/
def isWordChar (c : Char) : Bool := c.isAlphanum || c = '_'

/-- Search semantics of the compiled regex `^(?P<level>\w+): (?P<msg>.*)$`
on a newline-free subject (which is what `parse_line` passes after
stripping trailing newlines): anchored at the start, `level` greedily
takes the maximal nonempty word-character prefix (backtracking shorter
cannot place the literal colon), the literal separator follows, and `msg`
takes the remainder up to the end anchor. -/
def levelMsgPattern : RePattern where
  search := fun line =>
    let w := line.data.takeWhile isWordChar
    let rest := line.data.drop w.length
    if w.length ≠ 0 ∧ [':', ' '].isPrefixOf rest then
      some { groupdict := [("level", some (String.mk w)),
                           ("msg", some (String.mk (rest.drop 2)))],
             spans := [("level", ((0 : Int), (w.length : Int))),
                       ("msg", (((w.length : Int) + 2), (line.data.length : Int)))] }
    else none
  groupindex := ["level", "msg"]

/-- Search semantics of a compiled `^LITERAL` regex (no groups) on a
newline-free subject: it matches exactly when the subject starts with the
literal. -/
def caretLiteralPattern (lit : String) : RePattern where
  search := fun line =>
    if lit.data.isPrefixOf line.data then some { groupdict := [], spans := [] }
    else none
  groupindex := []

/-- Search semantics of the compiled regex `(?P<msg>.*)` on a newline-free
subject: the greedy dot-star at offset 0 captures the whole subject. -/
def wholeMsgPattern : RePattern where
  search := fun line =>
    some { groupdict := [("msg", some line)],
           spans := [("msg", ((0 : Int), (line.data.length : Int)))] }
  groupindex := ["msg"]

/-- Search semantics of a compiled regex that matches every subject with
an empty match and no groups (such as the empty regex). -/
def matchAllPattern : RePattern where
  search := fun _ => some { groupdict := [], spans := [] }
  groupindex := []

/-- The no-op configuration of claim C6: no input regex, no output
format, no global replacements, empty rules, `unmatched = pass`. -/
def noopConfig : Config := {}

/-- Input settings of claim C1: the compiled `^(?P<level>\w+): (?P<msg>.*)$`. -/
def c1Input : InputFormatConfig := { regex := some levelMsgPattern }

/-- Configuration of claim C1: that input regex and no output format. -/
def c1Config : Config := { input := c1Input }

/-- Claim C1's rewrite rule: `when.regex = "^ERROR"`, message scope,
replace template exactly as the claim writes it (single braces, which
Jinja2 treats as literal text). -/
def c1Rule : CompiledRule :=
  .rewrite (caretLiteralPattern "ERROR")
    (compile_template "[\x7blevel\x7d] \x7bmsg\x7d") .message

/-- The nearby working rule for C1's amendment: a `when.regex` that
actually matches the extracted message, with the replacement written in
Jinja2's double-brace placeholder syntax. -/
def c1RuleDisk : CompiledRule :=
  .rewrite (caretLiteralPattern "disk")
    (compile_template "[\x7b\x7blevel\x7d\x7d] \x7b\x7bmsg\x7d\x7d") .message

/-- Configuration of claim C9: `global_replace: \x7b"foo": "bar"\x7d` and an
input regex capturing the whole line as `msg`. -/
def c9Config : Config :=
  { input := { regex := some wholeMsgPattern }, global_replace := [("foo", "bar")] }

/-- A rewrite rule whose Jinja2 template references an undefined
placeholder, used for claim C4. -/
def missingVarRule : CompiledRule :=
  .rewrite matchAllPattern (compile_template "\x7b\x7bmissing\x7d\x7d") .message

/-- A rewrite rule for claim C4's witness that only fires on lines whose
message starts with `boom`, and whose template then fails to render. -/
def c4Rule : CompiledRule :=
  .rewrite (caretLiteralPattern "boom") (compile_template "\x7b\x7bmissing\x7d\x7d") .message

/-- Configuration of claim C5: an output format referencing a field that
is never defined. -/
def c5Config : Config :=
  { output := { format := some "\x7bmissing_field\x7d: \x7bmsg\x7d" } }

/-- Split a character stream into lines the way Python iterates a text
stream: each line runs up to and includes its newline, and a final
unterminated chunk forms one last line.  The accumulator holds the
current line's characters in reverse. -/
def splitLinesAux : List Char → List Char → List String
  | [], acc => if acc.isEmpty then [] else [String.mk acc.reverse]
  | c :: rest, acc =>
    if c = '\n' then String.mk (acc.reverse ++ ['\n']) :: splitLinesAux rest []
    else splitLinesAux rest (c :: acc)

/-- Python text-stream line iteration over a whole string. -/
def splitLines (s : String) : List String := splitLinesAux s.data []

/-- The text a no-op run writes for a list of raw input lines: each line
stripped of trailing newlines and re-terminated. -/
def noopOut (lines : List String) : String :=
  lines.foldr (fun l acc => (rstripNewlines l ++ "\n") ++ acc) ""

/-! ### General lemmas about the embedding -/

theorem str_append_data (a b : String) : (a ++ b).data = a.data ++ b.data := by
  cases a
  cases b
  rfl

theorem mk_append (a b : List Char) : String.mk a ++ String.mk b = String.mk (a ++ b) := rfl

theorem mk_data (s : String) : String.mk s.data = s := by
  cases s
  rfl

theorem runRules_cons_match (cfg : Config) (r : CompiledRule) (rest : List CompiledRule)
    (p : ParsedLine) (m : ReMatch) (h : ruleMatches r p = some m) :
    runRules cfg (r :: rest) p =
      (r.apply p).map (fun res => if res.1 then some (_emit cfg res.2) else none) := by
  cases happ : r.apply p with
  | error e => simp [runRules, h, happ, Except.map, Bind.bind, Except.bind]
  | ok res => simp [runRules, h, happ, Except.map, Bind.bind, Except.bind]

theorem runRules_cons_nomatch (cfg : Config) (r : CompiledRule) (rest : List CompiledRule)
    (p : ParsedLine) (h : ruleMatches r p = none) :
    runRules cfg (r :: rest) p = runRules cfg rest p := by
  simp [runRules, h]

/-! ### Claim C2 -/

/-- C2: rules are evaluated in declaration order; the first rule whose
`matches` succeeds is applied and the outcome does not depend on any
later rule; in particular a matching skip rule declared before a matching
pass rule drops the line, and in the opposite order the line is emitted
unchanged. -/
theorem C2_first_match_wins :
    (∀ (cfg : Config) (pre : List CompiledRule) (r : CompiledRule)
       (rest : List CompiledRule) (p : ParsedLine) (m : ReMatch),
       (∀ r' ∈ pre, ruleMatches r' p = none) → ruleMatches r p = some m →
       runRules cfg (pre ++ r :: rest) p =
         (r.apply p).map (fun res => if res.1 then some (_emit cfg res.2) else none))
    ∧ (∀ (cfg : Config) (sp pp : RePattern) (p : ParsedLine) (m1 m2 : ReMatch),
       ruleMatches (.skip sp) p = some m1 → ruleMatches (.pass pp) p = some m2 →
       runRules cfg [.skip sp, .pass pp] p = .ok none ∧
       runRules cfg [.pass pp, .skip sp] p = .ok (some (_emit cfg p))) := by
  constructor
  · intro cfg pre r rest p m hpre hr
    induction pre with
    | nil => simpa using runRules_cons_match cfg r rest p m hr
    | cons q pre ih =>
      have hq : ruleMatches q p = none := hpre q (by simp)
      have hpre' : ∀ r' ∈ pre, ruleMatches r' p = none := fun r' h' => hpre r' (by simp [h'])
      rw [List.cons_append, runRules_cons_nomatch _ _ _ _ hq]
      exact ih hpre'
  · intro cfg sp pp p m1 m2 h1 h2
    constructor
    · rw [runRules_cons_match cfg _ _ p m1 h1]
      rfl
    · rw [runRules_cons_match cfg _ _ p m2 h2]
      rfl

/-- Witness for C2 at a concrete line and two always-matching rules. -/
theorem C2_witness :
    runRules noopConfig [.skip matchAllPattern, .pass matchAllPattern]
        { fields := [], msg := "x", original_line := "x" } = .ok none
    ∧ runRules noopConfig [.pass matchAllPattern, .skip matchAllPattern]
        { fields := [], msg := "x", original_line := "x" } = .ok (some "x\n") := by
  have h := C2_first_match_wins.2 noopConfig matchAllPattern matchAllPattern
    { fields := [], msg := "x", original_line := "x" }
    { groupdict := [], spans := [] } { groupdict := [], spans := [] } rfl rfl
  refine ⟨h.1, ?_⟩
  rw [h.2]
  rfl

/-! ### Claim C3 -/

/-- C3: a set `line_override` is emitted verbatim plus a terminator under
every configuration (so no other reconstruction path can influence the
output); the parser never sets `line_override`; and the only rule whose
`apply` can set it is a line-scope rewrite, which keeps `msg` unchanged
in the value it returns. -/
theorem C3_line_override_wins :
    (∀ (cfg : Config) (p : ParsedLine) (s : String),
       p.line_override = some s → _emit cfg p = s ++ "\n")
    ∧ (∀ (raw : String) (icfg : InputFormatConfig),
       (parse_line raw icfg).line_override = none)
    ∧ (∀ (r : CompiledRule) (p : ParsedLine) (res : Bool × ParsedLine),
       p.line_override = none → r.apply p = .ok res → res.2.line_override ≠ none →
       (∃ pat tpl, r = .rewrite pat tpl .line) ∧ res.2.msg = p.msg) := by
  refine ⟨?_, ?_, ?_⟩
  · intro cfg p s h
    simp [_emit, h]
  · intro raw icfg
    unfold parse_line parse_line_core
    split
    · rfl
    · split <;> rfl
  · intro r p res hnone happ hov
    cases r with
    | skip pat =>
      simp only [CompiledRule.apply, Except.ok.injEq] at happ
      rw [← happ] at hov
      exact absurd hnone hov
    | pass pat =>
      simp only [CompiledRule.apply, Except.ok.injEq] at happ
      rw [← happ] at hov
      exact absurd hnone hov
    | rewrite pat tpl scope =>
      cases hr : _render_template pat tpl p with
      | error e => simp [CompiledRule.apply, hr, Bind.bind, Except.bind] at happ
      | ok rendered =>
        cases scope with
        | line =>
          simp only [CompiledRule.apply, hr, Bind.bind, Except.bind,
            Except.ok.injEq] at happ
          rw [← happ]
          exact ⟨⟨pat, tpl, rfl⟩, rfl⟩
        | message =>
          simp only [CompiledRule.apply, hr, Bind.bind, Except.bind,
            Except.ok.injEq] at happ
          rw [← happ] at hov
          exact absurd rfl hov

/-- Witness for C3 at a concrete parsed line carrying an override. -/
theorem C3_witness :
    _emit noopConfig
      { fields := [], msg := "m", original_line := "o", line_override := some "Z" } = "Z\n" :=
  C3_line_override_wins.1 noopConfig _ "Z" rfl

/-! ### Claim C5 -/

/-- C5: when a configured output format fails to render for a line, that
line is emitted as its bare `msg` plus a terminator, and processing
continues with subsequent lines (with no rules configured a run never
aborts, and after any successfully processed line the remaining lines are
processed normally). -/
theorem C5_output_format_fallback :
    (∀ (cfg : Config) (p : ParsedLine) (fmt : String),
       cfg.output.format = some fmt → fmt ≠ "" → p.line_override = none →
       pyFormat fmt p.as_mapping = .error () →
       _emit cfg p = p.msg ++ "\n")
    ∧ (∀ (cfg : Config) (lines : List String) (n : Nat),
       (process_stream cfg [] lines n).err = none)
    ∧ (∀ (cfg : Config) (rules : List CompiledRule) (l : String) (rest : List String)
         (n : Nat) (out : Option String),
       processRawLine cfg rules l n = .ok out →
       process_stream cfg rules (l :: rest) n =
         { output := out.getD "" ++ (process_stream cfg rules rest (n + 1)).output,
           err := (process_stream cfg rules rest (n + 1)).err }) := by
  refine ⟨?_, ?_, ?_⟩
  · intro cfg p fmt hfmt hne hov hfail
    simp [_emit, hov, hfmt, hne, hfail]
  · intro cfg lines
    induction lines with
    | nil => intro n; rfl
    | cons l ls ih =>
      intro n
      simp only [process_stream, processRawLine, runRules]
      exact ih (n + 1)
  · intro cfg rules l rest n out h
    simp [process_stream, h]

/-- Witness for C5: the missing-field format falls back to the bare
message for a concrete line. -/
theorem C5_witness :
    _emit c5Config { fields := [("line_no", "1")], msg := "hello", original_line := "hello" }
      = "hello\n" :=
  C5_output_format_fallback.1 c5Config
    { fields := [("line_no", "1")], msg := "hello", original_line := "hello" }
    "\x7bmissing_field\x7d: \x7bmsg\x7d" rfl (by decide) rfl rfl

/-! ### Claim C4 -/

theorem process_stream_prefix_error (cfg : Config) (rules : List CompiledRule)
    (l : String) (post : List String) (e : String) :
    ∀ (pre : List String) (n : Nat) (s : String),
      process_stream cfg rules pre n = { output := s, err := none } →
      processRawLine cfg rules l (n + pre.length) = .error e →
      process_stream cfg rules (pre ++ l :: post) n = { output := s, err := some e } := by
  intro pre
  induction pre with
  | nil =>
    intro n s h1 h2
    have hs : s = "" := by
      have h := congrArg StreamResult.output h1
      simpa [process_stream] using h.symm
    subst hs
    simp only [List.length_nil, Nat.add_zero] at h2
    simp [process_stream, h2]
  | cons q pre ih =>
    intro n s h1 h2
    cases hq : processRawLine cfg rules q n with
    | error e' =>
      simp only [process_stream, hq] at h1
      exact absurd (congrArg StreamResult.err h1) (by simp)
    | ok out =>
      simp only [process_stream, hq] at h1
      have herr : (process_stream cfg rules pre (n + 1)).err = none := by
        have h := congrArg StreamResult.err h1
        simpa using h
      have hout : out.getD "" ++ (process_stream cfg rules pre (n + 1)).output = s := by
        have h := congrArg StreamResult.output h1
        simpa using h
      have h1' : process_stream cfg rules pre (n + 1) =
          { output := (process_stream cfg rules pre (n + 1)).output, err := none } := by
        cases hps : process_stream cfg rules pre (n + 1)
        simp_all
      have h2' : processRawLine cfg rules l ((n + 1) + pre.length) = .error e := by
        have harith : (n + 1) + pre.length = n + (q :: pre).length := by
          simp [List.length_cons]
          omega
        rw [harith]
        exact h2
      have hres := ih (n + 1) _ h1' h2'
      simp only [List.cons_append, process_stream, hq, List.append_eq]
      rw [hres]
      exact congrArg₂ StreamResult.mk hout rfl

/-- C4: a prefix of lines that processes cleanly followed by a line on
which `processRawLine` raises leaves exactly the prefix's output and the
error — the failing line contributes nothing and no later line is
processed; and an `apply` error can only come from a rewrite rule whose
template rendering failed. -/
theorem C4_rewrite_error_aborts :
    (∀ (cfg : Config) (rules : List CompiledRule) (pre : List String) (l : String)
       (post : List String) (s e : String),
       process_stream cfg rules pre 1 = { output := s, err := none } →
       processRawLine cfg rules l (1 + pre.length) = .error e →
       process_stream cfg rules (pre ++ l :: post) 1 = { output := s, err := some e })
    ∧ (∀ (r : CompiledRule) (p : ParsedLine) (e : String),
       r.apply p = .error e →
       ∃ pat tpl scope, r = .rewrite pat tpl scope ∧ _render_template pat tpl p = .error e) := by
  constructor
  · intro cfg rules pre l post s e h1 h2
    exact process_stream_prefix_error cfg rules l post e pre 1 s h1 h2
  · intro r p e happ
    cases r with
    | skip pat => simp [CompiledRule.apply] at happ
    | pass pat => simp [CompiledRule.apply] at happ
    | rewrite pat tpl scope =>
      cases hr : _render_template pat tpl p with
      | ok rendered =>
        cases scope <;>
          simp [CompiledRule.apply, hr, Bind.bind, Except.bind] at happ
      | error e' =>
        simp only [CompiledRule.apply, hr, Bind.bind, Except.bind,
          Except.error.injEq] at happ
        subst happ
        exact ⟨pat, tpl, scope, rfl, hr⟩

/-- Witness for C4: one clean line, then a line whose rewrite template
references an undefined placeholder; the run stops with that error and
only the first line's output. -/
theorem C4_witness :
    process_stream noopConfig [c4Rule] (["hello\n"] ++ "boom\n" :: ["after\n"]) 1
      = { output := "hello\n", err := some "missing" } :=
  C4_rewrite_error_aborts.1 noopConfig [c4Rule] ["hello\n"] "boom\n" ["after\n"]
    "hello\n" "missing" (by decide) rfl

/-! ### Claim C7 -/

theorem lookup_filterMap_ne (l : List (String × Option String)) (g : String)
    (hg : g ≠ "msg") :
    List.lookup g (l.filterMap fun kv =>
        if kv.1 = "msg" then none else some (kv.1, kv.2.getD ""))
      = (List.lookup g l).map (fun v => v.getD "") := by
  induction l with
  | nil => rfl
  | cons kv rest ih =>
    obtain ⟨k, v⟩ := kv
    by_cases hk : k = "msg"
    · subst hk
      have hgk : (g == "msg") = false := by simpa using hg
      simp [List.filterMap_cons, List.lookup, hgk, ih]
    · simp only [List.filterMap_cons, if_neg hk]
      by_cases hgk : g = k
      · subst hgk
        simp [List.lookup]
      · have hgk' : (g == k) = false := by simpa using hgk
        simp [List.lookup, hgk', ih]

/-- C7: when the configured input regex matches the (newline-stripped)
line, every named group other than `msg` is looked up in `fields` exactly
as its capture with `None` and empty captures alike recorded as the empty
string; `msg` is the `msg` capture, falling back to the whole line when
that group did not participate; and `msg_span` is the `msg` group's span
exactly when the pattern declares a `msg` group. -/
theorem C7_parse_extraction :
    ∀ (raw : String) (icfg : InputFormatConfig) (pat : RePattern) (m : ReMatch),
      icfg.regex = some pat →
      pat.search (rstripNewlines raw) = some m →
      (∀ g, g ≠ "msg" →
        List.lookup g (parse_line raw icfg).fields
          = (List.lookup g m.groupdict).map (fun v => v.getD ""))
      ∧ (parse_line raw icfg).msg
          = ((List.lookup "msg" m.groupdict).join).getD (rstripNewlines raw)
      ∧ ("msg" ∈ pat.groupindex →
          (parse_line raw icfg).msg_span
            = some ((List.lookup "msg" m.spans).getD ((-1 : Int), (-1 : Int))))
      ∧ ("msg" ∉ pat.groupindex → (parse_line raw icfg).msg_span = none) := by
  intro raw icfg pat m hreg hsearch
  have hp : parse_line raw icfg =
      { fields := m.groupdict.filterMap fun kv =>
          if kv.1 = "msg" then none else some (kv.1, kv.2.getD ""),
        msg := ((List.lookup "msg" m.groupdict).join).getD (rstripNewlines raw),
        original_line := rstripNewlines raw,
        msg_span :=
          if "msg" ∈ pat.groupindex then
            some ((List.lookup "msg" m.spans).getD ((-1 : Int), (-1 : Int)))
          else none,
        line_override := none } := by
    unfold parse_line parse_line_core
    rw [hreg]
    simp only [hsearch]
  rw [hp]
  refine ⟨?_, rfl, ?_, ?_⟩
  · intro g hg
    exact lookup_filterMap_ne _ g hg
  · intro hmem
    simp [hmem]
  · intro hmem
    simp [hmem]

/-- Witness for C7 on `^(?P<level>\w+): (?P<msg>.*)$` against the line
`ERROR: disk full`. -/
theorem C7_witness :
    List.lookup "level" (parse_line "ERROR: disk full\n" c1Input).fields = some "ERROR"
    ∧ (parse_line "ERROR: disk full\n" c1Input).msg = "disk full"
    ∧ (parse_line "ERROR: disk full\n" c1Input).msg_span = some ((7 : Int), (16 : Int)) := by
  have h := C7_parse_extraction "ERROR: disk full\n" c1Input levelMsgPattern
    { groupdict := [("level", some "ERROR"), ("msg", some "disk full")],
      spans := [("level", ((0 : Int), (5 : Int))), ("msg", ((7 : Int), (16 : Int)))] }
    rfl rfl
  refine ⟨?_, ?_, ?_⟩
  · rw [h.1 "level" (by decide)]
    rfl
  · rw [h.2.1]
    rfl
  · rw [h.2.2.1 (by decide)]
    rfl

/-! ### Claim C9 -/

/-- C9: global literal replacement happens before parsing (the parsed
line handed to the rules is built from the replaced text); an entry with
an empty search string is skipped; entries apply in declared order, each
replacing every non-overlapping occurrence left to right; and with
`global_replace` mapping `foo` to `bar` and a whole-line `msg` input
regex, the line `foo baz` parses with `msg = "bar baz"`. -/
theorem C9_global_replacement_before_parse :
    (∀ (cfg : Config) (rules : List CompiledRule) (raw : String) (n : Nat),
       processRawLine cfg rules raw n =
         runRules cfg rules
           { parse_line (_apply_global_replacements cfg raw) cfg.input with
             fields := dinsert
               (parse_line (_apply_global_replacements cfg raw) cfg.input).fields
               "line_no" (toString n) })
    ∧ (∀ (i : InputFormatConfig) (o : OutputFormatConfig) (gr : List (String × String))
         (un w raw : String),
       _apply_global_replacements
           { input := i, output := o, global_replace := ("", w) :: gr, unmatched := un } raw
         = _apply_global_replacements
           { input := i, output := o, global_replace := gr, unmatched := un } raw)
    ∧ _apply_global_replacements { global_replace := [("ab", "b"), ("b", "c")] } "ab" = "c"
    ∧ _apply_global_replacements { global_replace := [("b", "c"), ("ab", "b")] } "ab" = "ac"
    ∧ pyReplace "foofoo" "foo" "bar" = "barbar"
    ∧ pyReplace "aaa" "aa" "b" = "ba"
    ∧ (parse_line (_apply_global_replacements c9Config "foo baz") c9Config.input).msg
        = "bar baz" := by
  refine ⟨fun cfg rules raw n => rfl, ?_, by decide, by decide, by decide, by decide, by decide⟩
  intro i o gr un w raw
  unfold _apply_global_replacements
  simp

/-! ### Claim C10 -/

theorem emit_append_nl (cfg : Config) (p : ParsedLine) :
    ∃ body, _emit cfg p = body ++ "\n" := by
  unfold _emit
  cases hov : p.line_override with
  | some ov => exact ⟨ov, rfl⟩
  | none =>
    cases hf : cfg.output.format with
    | none => exact ⟨emitNoFormat p, rfl⟩
    | some fmt =>
      by_cases hne : fmt = ""
      · exact ⟨emitNoFormat p, by simp [hne]⟩
      · cases hpf : pyFormat fmt p.as_mapping with
        | ok s => exact ⟨s, by simp [hne, hpf]⟩
        | error u => exact ⟨p.msg, by simp [hne, hpf]⟩

theorem runRules_ok_some_emit (cfg : Config) (rules : List CompiledRule) (p : ParsedLine) :
    ∀ out : String, runRules cfg rules p = .ok (some out) → ∃ q, out = _emit cfg q := by
  induction rules with
  | nil =>
    intro out h
    simp only [runRules] at h
    by_cases hu : cfg.unmatched = "pass"
    · rw [if_pos hu] at h
      simp only [Except.ok.injEq, Option.some.injEq] at h
      exact ⟨p, h.symm⟩
    · rw [if_neg hu] at h
      simp at h
  | cons r rest ih =>
    intro out h
    cases hm : ruleMatches r p with
    | none =>
      rw [runRules_cons_nomatch _ _ _ _ hm] at h
      exact ih out h
    | some m =>
      rw [runRules_cons_match _ _ _ _ _ hm] at h
      cases happ : r.apply p with
      | error e => simp [happ, Except.map] at h
      | ok res =>
        simp only [happ, Except.map, Except.ok.injEq] at h
        cases hres : res.1 with
        | true =>
          rw [hres] at h
          simp only [if_true, Option.some.injEq] at h
          exact ⟨res.2, h.symm⟩
        | false =>
          rw [hres] at h
          simp at h

/-- C10: every emission path writes some body followed by one appended
terminator; parsing records the raw line with all trailing newlines
stripped as `original_line`; any text a processed line emits is
terminator-ended; and a final input line lacking a terminator still
produces terminator-ended output. -/
theorem C10_every_emit_terminated :
    (∀ (cfg : Config) (p : ParsedLine), ∃ body, _emit cfg p = body ++ "\n")
    ∧ (∀ (raw : String) (icfg : InputFormatConfig),
        (parse_line raw icfg).original_line = rstripNewlines raw)
    ∧ (∀ (cfg : Config) (rules : List CompiledRule) (raw : String) (n : Nat) (out : String),
        processRawLine cfg rules raw n = .ok (some out) → ∃ body, out = body ++ "\n")
    ∧ (process_stream noopConfig [] ["abc"] 1).output = "abc\n" := by
  refine ⟨emit_append_nl, ?_, ?_, by decide⟩
  · intro raw icfg
    unfold parse_line parse_line_core
    split
    · rfl
    · split <;> rfl
  · intro cfg rules raw n out h
    obtain ⟨q, hq⟩ := runRules_ok_some_emit cfg rules _ out h
    obtain ⟨body, hb⟩ := emit_append_nl cfg q
    exact ⟨body, by rw [hq, hb]⟩

/-- Witness for C10: the unterminated final line `abc` is emitted with a
terminator. -/
theorem C10_witness : ∃ body, ("abc\n" : String) = body ++ "\n" :=
  C10_every_emit_terminated.2.2.1 noopConfig [] "abc" 1 "abc\n" rfl

/-! ### Claim C8 -/

theorem _parse_flags_some (s : String) :
    _parse_flags (some s) =
      if s = "" then { ignorecase := false, multiline := true, dotall := false }
      else s.data.foldl flagStep { ignorecase := false, multiline := true, dotall := false } :=
  rfl

theorem flagStep_multiline (fl : ReFlags) (c : Char) (h : fl.multiline = true) :
    (flagStep fl c).multiline = true := by
  unfold flagStep
  split_ifs <;> simp [h]

theorem foldl_flagStep_multiline (l : List Char) :
    ∀ fl : ReFlags, fl.multiline = true → (l.foldl flagStep fl).multiline = true := by
  induction l with
  | nil =>
    intro fl h
    simpa using h
  | cons c l ih =>
    intro fl h
    rw [List.foldl_cons]
    exact ih _ (flagStep_multiline fl c h)

theorem flagStep_ignorecase (fl : ReFlags) (c : Char) :
    ((flagStep fl c).ignorecase = true) ↔ (fl.ignorecase = true ∨ c.toLower = 'i') := by
  unfold flagStep
  split_ifs <;> simp_all

theorem foldl_flagStep_ignorecase (l : List Char) :
    ∀ fl : ReFlags, ((l.foldl flagStep fl).ignorecase = true) ↔
      (fl.ignorecase = true ∨ ∃ c ∈ l, c.toLower = 'i') := by
  induction l with
  | nil =>
    intro fl
    simp
  | cons c l ih =>
    intro fl
    rw [List.foldl_cons, ih, flagStep_ignorecase]
    simp only [List.mem_cons]
    constructor
    · rintro (h | h)
      · rcases h with h | h
        · exact Or.inl h
        · exact Or.inr ⟨c, Or.inl rfl, h⟩
      · rcases h with ⟨x, hx, hxi⟩
        exact Or.inr ⟨x, Or.inr hx, hxi⟩
    · rintro (h | ⟨x, hx | hx, hxi⟩)
      · exact Or.inl (Or.inl h)
      · exact Or.inl (Or.inr (hx ▸ hxi))
      · exact Or.inr ⟨x, hx, hxi⟩

theorem flagStep_dotall (fl : ReFlags) (c : Char) :
    ((flagStep fl c).dotall = true) ↔ (fl.dotall = true ∨ c.toLower = 's') := by
  unfold flagStep
  split_ifs <;> simp_all

theorem foldl_flagStep_dotall (l : List Char) :
    ∀ fl : ReFlags, ((l.foldl flagStep fl).dotall = true) ↔
      (fl.dotall = true ∨ ∃ c ∈ l, c.toLower = 's') := by
  induction l with
  | nil =>
    intro fl
    simp
  | cons c l ih =>
    intro fl
    rw [List.foldl_cons, ih, flagStep_dotall]
    simp only [List.mem_cons]
    constructor
    · rintro (h | h)
      · rcases h with h | h
        · exact Or.inl h
        · exact Or.inr ⟨c, Or.inl rfl, h⟩
      · rcases h with ⟨x, hx, hxi⟩
        exact Or.inr ⟨x, Or.inr hx, hxi⟩
    · rintro (h | ⟨x, hx | hx, hxi⟩)
      · exact Or.inl (Or.inl h)
      · exact Or.inl (Or.inr (hx ▸ hxi))
      · exact Or.inr ⟨x, hx, hxi⟩

/-- C8: flag translation always enables multiline mode, even with no flag
letters (absent or empty: the result is exactly multiline-only, so
matching is case-sensitive and dot does not cross line terminators by
default); and a letter lowercasing to `i` (in either case) turns on
case-insensitive matching, one lowercasing to `s` turns on dotall, and
nothing else does.  The same translation serves the input-format
expression and every rule's `when` expression. -/
theorem C8_flags_translation :
    (∀ o : Option String, (_parse_flags o).multiline = true)
    ∧ _parse_flags none = { ignorecase := false, multiline := true, dotall := false }
    ∧ _parse_flags (some "") = { ignorecase := false, multiline := true, dotall := false }
    ∧ (∀ s : String,
        ((_parse_flags (some s)).ignorecase = true ↔ ∃ c ∈ s.data, c.toLower = 'i'))
    ∧ (∀ s : String,
        ((_parse_flags (some s)).dotall = true ↔ ∃ c ∈ s.data, c.toLower = 's')) := by
  refine ⟨?_, rfl, rfl, ?_, ?_⟩
  · intro o
    cases o with
    | none => rfl
    | some s =>
      rw [_parse_flags_some]
      by_cases hs : s = ""
      · simp [hs]
      · rw [if_neg hs]
        exact foldl_flagStep_multiline s.data _ rfl
  · intro s
    rw [_parse_flags_some]
    by_cases hs : s = ""
    · subst hs
      decide
    · rw [if_neg hs, foldl_flagStep_ignorecase]
      simp
  · intro s
    rw [_parse_flags_some]
    by_cases hs : s = ""
    · subst hs
      decide
    · rw [if_neg hs, foldl_flagStep_dotall]
      simp

/-- Witness for C8 at the flag string `IS`: both letters act despite
their upper case, and multiline stays on. -/
theorem C8_witness :
    (_parse_flags (some "IS")).ignorecase = true
    ∧ (_parse_flags (some "IS")).dotall = true
    ∧ (_parse_flags (some "IS")).multiline = true := by
  refine ⟨?_, ?_, C8_flags_translation.1 (some "IS")⟩
  · exact (C8_flags_translation.2.2.2.1 "IS").mpr ⟨'I', by decide, by decide⟩
  · exact (C8_flags_translation.2.2.2.2 "IS").mpr ⟨'S', by decide, by decide⟩

/-! ### Claim C1 -/

/-- Counterexample to C1 as stated: on the input line `ERROR: disk full`
the rule whose `when.regex` is `^ERROR` does not match (rule matching
searches the extracted message `disk full`, not the whole line), and the
emitted line is the unchanged `ERROR: disk full`, not `[ERROR] disk full`. -/
theorem C1_counterexample :
    ruleMatches c1Rule
        ({ parse_line "ERROR: disk full\n" c1Input with
           fields := dinsert (parse_line "ERROR: disk full\n" c1Input).fields
             "line_no" (toString 1) }) = none
    ∧ process_stream c1Config [c1Rule] ["ERROR: disk full\n"] 1
        = { output := "ERROR: disk full\n", err := none }
    ∧ ("ERROR: disk full\n" : String) ≠ "[ERROR] disk full\n" := by
  refine ⟨rfl, by decide, by decide⟩

/-- C1 amended: the input line parses with `level = ERROR` and
`msg = disk full`; but the rule's `when.regex` is searched against `msg`,
so `^ERROR` never matches and the line is emitted unchanged under the
default `unmatched = pass` policy; a rule whose `when.regex` (`^disk`)
does match the message rewrites it — its `replace` template is a Jinja2
template whose double-brace placeholders resolve against the field
mapping — and the new message is spliced back into the original line at
`msg_span`, emitting `ERROR: [ERROR] disk full`. -/
theorem C1_amended :
    List.lookup "level" (parse_line "ERROR: disk full\n" c1Input).fields = some "ERROR"
    ∧ (parse_line "ERROR: disk full\n" c1Input).msg = "disk full"
    ∧ process_stream c1Config [c1Rule] ["ERROR: disk full\n"] 1
        = { output := "ERROR: disk full\n", err := none }
    ∧ process_stream c1Config [c1RuleDisk] ["ERROR: disk full\n"] 1
        = { output := "ERROR: [ERROR] disk full\n", err := none } := by
  refine ⟨by decide, by decide, by decide, by decide⟩

/-! ### Claim C6 -/

/-- Counterexample to C6 as stated: with the no-op configuration the
final input line `abc`, which lacks a terminator, is emitted as `abc`
plus an appended terminator, so processing is not the identity on the
stream. -/
theorem C6_counterexample :
    process_stream noopConfig [] ["abc"] 1 = { output := "abc\n", err := none }
    ∧ ("abc\n" : String) ≠ "abc" :=
  ⟨by decide, by decide⟩

theorem dropWhile_eq_self_of_all (p : Char → Bool) (cs : List Char)
    (h : ∀ c ∈ cs, p c = false) : cs.dropWhile p = cs := by
  cases cs with
  | nil => rfl
  | cons c rest =>
    rw [List.dropWhile_cons]
    simp [h c (by simp)]

theorem dropWhile_idem (p : Char → Bool) (cs : List Char) :
    (cs.dropWhile p).dropWhile p = cs.dropWhile p := by
  induction cs with
  | nil => rfl
  | cons c rest ih =>
    rw [List.dropWhile_cons]
    by_cases h : p c
    · simp [h, ih]
    · simp [List.dropWhile_cons, h]

theorem dropTrailingNL_append_nl (cs : List Char) :
    dropTrailingNL (cs ++ ['\n']) = dropTrailingNL cs := by
  unfold dropTrailingNL
  simp [List.reverse_append, List.dropWhile_cons]

theorem dropTrailingNL_no_nl (cs : List Char) (h : ∀ c ∈ cs, c ≠ '\n') :
    dropTrailingNL cs = cs := by
  unfold dropTrailingNL
  rw [dropWhile_eq_self_of_all _ _ (fun c hc => by
    simp [h c (List.mem_reverse.mp hc)]), List.reverse_reverse]

theorem rstrip_append_nl (s : String) :
    rstripNewlines (s ++ "\n") = rstripNewlines s := by
  unfold rstripNewlines
  rw [str_append_data]
  exact congrArg String.mk (dropTrailingNL_append_nl s.data)

theorem rstrip_rstrip (s : String) :
    rstripNewlines (rstripNewlines s) = rstripNewlines s := by
  show String.mk (dropTrailingNL (dropTrailingNL s.data)) = String.mk (dropTrailingNL s.data)
  unfold dropTrailingNL
  simp [dropWhile_idem]

theorem str_append_empty (s : String) : s ++ "" = s := by
  cases s with
  | mk data =>
    show String.mk (data ++ []) = String.mk data
    simp

theorem rstrip_mk_concat_nl (acc : List Char) (h : ∀ c ∈ acc, c ≠ '\n') :
    rstripNewlines (String.mk (acc ++ ['\n'])) = String.mk acc := by
  unfold rstripNewlines
  rw [show (String.mk (acc ++ ['\n'])).data = acc ++ ['\n'] from rfl,
    dropTrailingNL_append_nl, dropTrailingNL_no_nl acc h]

/-- One line through the no-op configuration: the raw line is emitted
with its trailing newlines stripped and a single terminator appended. -/
theorem processRawLine_noop (raw : String) (n : Nat) :
    processRawLine noopConfig [] raw n = .ok (some (rstripNewlines raw ++ "\n")) := by
  have hrep : rstripNewlines (_apply_global_replacements noopConfig raw)
      = rstripNewlines raw := by
    unfold _apply_global_replacements
    by_cases h : endsWithNL raw
    · simp only [h, if_true]
      show rstripNewlines (rstripNewlines raw ++ "\n") = _
      rw [rstrip_append_nl, rstrip_rstrip]
    · simp only [h, if_false]
      show rstripNewlines (rstripNewlines raw ++ "") = _
      rw [str_append_empty, rstrip_rstrip]
  have hparse : parse_line (_apply_global_replacements noopConfig raw) noopConfig.input
      = { fields := [], msg := rstripNewlines raw,
          original_line := rstripNewlines raw } := by
    unfold parse_line
    rw [hrep]
    rfl
  show runRules noopConfig []
      { parse_line (_apply_global_replacements noopConfig raw) noopConfig.input with
        fields := dinsert
          (parse_line (_apply_global_replacements noopConfig raw) noopConfig.input).fields
          "line_no" (toString n) } = _
  rw [hparse]
  rfl

/-- A whole no-op run: every line goes through unchanged apart from
terminator normalisation, and the run never errors. -/
theorem process_stream_noop (lines : List String) :
    ∀ n : Nat, process_stream noopConfig [] lines n
      = { output := noopOut lines, err := none } := by
  induction lines with
  | nil =>
    intro n
    rfl
  | cons l ls ih =>
    intro n
    simp only [process_stream, processRawLine_noop l n]
    rw [ih (n + 1)]
    rfl

theorem noopOut_nl_terminated (lines : List String) :
    (noopOut lines).data = [] ∨ (noopOut lines).data.getLast? = some '\n' := by
  induction lines with
  | nil => exact Or.inl rfl
  | cons l ls ih =>
    right
    show ((rstripNewlines l ++ "\n") ++ noopOut ls).data.getLast? = some '\n'
    rw [str_append_data]
    rcases ih with h | h
    · rw [h, List.append_nil, str_append_data]
      exact List.getLast?_concat _
    · rw [List.getLast?_append_of_ne_nil _ (fun hnil => by simp [hnil] at h)]
      exact h

/-- Re-processing a newline-terminated (or empty) stream through the
no-op configuration reproduces it exactly. -/
theorem process_splitAux (cs : List Char) :
    ∀ (acc : List Char) (n : Nat),
      (∀ c ∈ acc, c ≠ '\n') →
      (cs.getLast? = some '\n' ∨ (cs = [] ∧ acc = [])) →
      process_stream noopConfig [] (splitLinesAux cs acc) n =
        { output := String.mk (acc.reverse ++ cs), err := none } := by
  induction cs with
  | nil =>
    intro acc n hacc hend
    rcases hend with h | ⟨_, hacc'⟩
    · simp at h
    · subst hacc'
      rfl
  | cons c rest ih =>
    intro acc n hacc hend
    have hend' : rest.getLast? = some '\n' ∨ (rest = [] ∧ c = '\n') := by
      rcases hend with h | ⟨h, _⟩
      · cases rest with
        | nil =>
          right
          refine ⟨rfl, ?_⟩
          simpa using h
        | cons r rs =>
          left
          rw [← List.getLast?_cons_cons (a := c) (b := r) (l := rs)]
          exact h
      · exact absurd h (by simp)
    by_cases hc : c = '\n'
    · subst hc
      show process_stream noopConfig []
          (String.mk (acc.reverse ++ ['\n']) :: splitLinesAux rest []) n = _
      have hline : processRawLine noopConfig [] (String.mk (acc.reverse ++ ['\n'])) n
          = .ok (some (String.mk acc.reverse ++ "\n")) := by
        rw [processRawLine_noop,
          rstrip_mk_concat_nl acc.reverse (fun c hc => hacc c (List.mem_reverse.mp hc))]
      have hrest : rest.getLast? = some '\n' ∨ (rest = [] ∧ ([] : List Char) = []) := by
        rcases hend' with h | ⟨h, _⟩
        · exact Or.inl h
        · exact Or.inr ⟨h, rfl⟩
      simp only [process_stream, hline]
      rw [ih [] (n + 1) (by simp) hrest]
      refine congrArg₂ StreamResult.mk ?_ rfl
      show (String.mk acc.reverse ++ "\n") ++ String.mk ([] ++ rest) = _
      rw [show ("\n" : String) = String.mk ['\n'] from rfl, mk_append, mk_append]
      simp
    · have hc' : rest.getLast? = some '\n' ∨ (rest = [] ∧ (c :: acc) = []) := by
        rcases hend' with h | ⟨_, h⟩
        · exact Or.inl h
        · exact absurd h hc
      have hsplit : splitLinesAux (c :: rest) acc = splitLinesAux rest (c :: acc) := by
        simp [splitLinesAux, hc]
      rw [hsplit]
      rw [ih (c :: acc) n (by
        intro x hx
        rcases List.mem_cons.mp hx with h | h
        · subst h
          exact hc
        · exact hacc x h) hc']
      refine congrArg₂ StreamResult.mk ?_ rfl
      show String.mk ((c :: acc).reverse ++ rest) = String.mk (acc.reverse ++ c :: rest)
      simp

theorem process_splitLines (s : String)
    (h : s.data = [] ∨ s.data.getLast? = some '\n') (n : Nat) :
    process_stream noopConfig [] (splitLines s) n = { output := s, err := none } := by
  have hend : s.data.getLast? = some '\n' ∨ (s.data = [] ∧ ([] : List Char) = []) := by
    rcases h with h | h
    · exact Or.inr ⟨h, rfl⟩
    · exact Or.inl h
  rw [splitLines, process_splitAux s.data [] n (by simp) hend]
  refine congrArg₂ StreamResult.mk ?_ rfl
  show String.mk ([] ++ s.data) = s
  rw [List.nil_append, mk_data]

/-- C6 amended: with the no-op configuration every line is emitted as
itself stripped of trailing newlines plus one appended terminator — so a
line already in terminator-normal form passes through verbatim, but a
final line lacking its terminator gains one and processing is not the
identity on such streams; no run ever errors, and re-processing the
produced output through the same configuration reproduces it exactly
(round-trip idempotence). -/
theorem C6_passthrough_amended :
    (∀ (raw : String) (n : Nat),
       processRawLine noopConfig [] raw n = .ok (some (rstripNewlines raw ++ "\n")))
    ∧ (∀ (raw : String) (n : Nat), raw = rstripNewlines raw ++ "\n" →
       processRawLine noopConfig [] raw n = .ok (some raw))
    ∧ (∀ (lines : List String) (n : Nat), (process_stream noopConfig [] lines n).err = none)
    ∧ (∀ lines : List String,
       process_stream noopConfig []
           (splitLines (process_stream noopConfig [] lines 1).output) 1
         = process_stream noopConfig [] lines 1) := by
  refine ⟨processRawLine_noop, ?_, ?_, ?_⟩
  · intro raw n h
    rw [h, processRawLine_noop, rstrip_append_nl, rstrip_rstrip]
  · intro lines n
    rw [process_stream_noop lines n]
  · intro lines
    rw [process_stream_noop lines 1]
    exact process_splitLines _ (noopOut_nl_terminated lines) 1

/-- Witness for C6: a terminator-normal line passes through verbatim, and
a two-line stream (whose second line lacks a terminator) round-trips
identically through a second pass. -/
theorem C6_witness :
    processRawLine noopConfig [] "abc\n" 1 = .ok (some "abc\n")
    ∧ process_stream noopConfig []
        (splitLines (process_stream noopConfig [] ["x\n", "abc"] 1).output) 1
      = process_stream noopConfig [] ["x\n", "abc"] 1 :=
  ⟨C6_passthrough_amended.2.1 "abc\n" 1 (by decide),
   C6_passthrough_amended.2.2.2 ["x\n", "abc"]⟩

end Minitrue
